import Mathlib

/-!
Verification of the Incident Notebook IOC-extraction workflow.

The repository's workflow controller (triage, refinement loop, merge and
commit, persistence boundary) is specified in spec.md; the frontend code
(`frontend-next`) is embedded directly from source. Workflow definitions
whose implementation file is not in the source tree are modelled from the
spec and marked as such in their doc comments.
-/

namespace IncidentNotebook

/-- Extraction categories: host indicators, network indicators, timeline events. -/
inductive Category
  | host
  | network
  | timeline
  deriving DecidableEq, Repr

/-- Refinement-session states from spec section 4.5. -/
inductive SessionState
  | PENDING
  | EXTRACTING
  | EVALUATING
  | ACCEPTED
  | REFINING
  | EXHAUSTED
  deriving DecidableEq, Repr

/-- A raw extracted record: indicator type plus indicator value. -/
structure RawRecord where
  indicator_type : String
  indicator : String
  deriving DecidableEq, Repr

/-- Modelled from the spec: an ExtractionCandidate (spec section 3) is a typed
collection of records of one category with provenance (iteration, model).
The implementing file `utils/ioc_extraction_workflow.py` is not in the
source tree. -/
structure ExtractionCandidate where
  category : Category
  records : List RawRecord
  iteration : Nat
  model : String
  deriving DecidableEq, Repr

/-- Modelled from the spec: an EvaluationVerdict (spec section 3). -/
structure EvaluationVerdict where
  accepted : Bool
  feedback : String
  category : Category
  deriving DecidableEq, Repr

/-- The empty candidate used before any extraction and as the ParseFailure
fallback (spec sections 4.3 and 7). -/
def emptyCandidate (c : Category) : ExtractionCandidate :=
  { category := c, records := [], iteration := 0, model := "" }

/-- Modelled from the spec: a RefinementSession (spec section 3) — category
tag, current candidate, iteration count, feedback history, plus the last
non-empty candidate, tracked so that a deadline-forced termination can
surface it (spec section 5). The implementing file
`utils/ioc_extraction_workflow.py` is not in the source tree. -/
structure RefinementSession where
  category : Category
  state : SessionState
  candidate : ExtractionCandidate
  last_nonempty : Option ExtractionCandidate
  iteration_count : Nat
  max_iterations : Nat
  feedback_history : List String
  deriving DecidableEq, Repr

/-- Default iteration budget (spec section 4.5). -/
def defaultMaxIterations : Nat := 3

/-- A fresh session for one category, at iteration 1, state PENDING. -/
def initSession (c : Category) (m : Nat) : RefinementSession :=
  { category := c
    state := .PENDING
    candidate := emptyCandidate c
    last_nonempty := none
    iteration_count := 1
    max_iterations := m
    feedback_history := [] }

/-- An extractor: given the iteration number and the accumulated feedback
history, produce a candidate (spec section 4.3); ParseFailure is already
absorbed into an empty candidate by the caller's convention. -/
def Extractor : Type := Nat → List String → ExtractionCandidate

/-- An evaluator: judge a candidate, returning a verdict (spec section 4.4). -/
def Evaluator : Type := ExtractionCandidate → EvaluationVerdict

/-- Modelled from the spec: one transition of the refinement state machine
(spec section 4.5). PENDING starts extraction; EXTRACTING records the
extractor's candidate (remembering it in `last_nonempty` when non-empty)
and moves to EVALUATING; EVALUATING branches on the verdict and the
iteration budget; REFINING increments the iteration count and loops back
to EXTRACTING; ACCEPTED and EXHAUSTED are terminal. -/
def sessionStep (ex : Extractor) (ev : Evaluator) (s : RefinementSession) :
    RefinementSession :=
  match s.state with
  | .PENDING => { s with state := .EXTRACTING }
  | .EXTRACTING =>
      let c := ex s.iteration_count s.feedback_history
      { s with
        state := .EVALUATING
        candidate := c
        last_nonempty := if c.records.isEmpty then s.last_nonempty else some c }
  | .EVALUATING =>
      let v := ev s.candidate
      if v.accepted then { s with state := .ACCEPTED }
      else if s.iteration_count < s.max_iterations then
        { s with
          state := .REFINING
          feedback_history := s.feedback_history ++ [v.feedback] }
      else { s with state := .EXHAUSTED }
  | .REFINING =>
      { s with state := .EXTRACTING, iteration_count := s.iteration_count + 1 }
  | .ACCEPTED => s
  | .EXHAUSTED => s

/-- Iterate the state machine a given number of steps. -/
def runSteps (ex : Extractor) (ev : Evaluator) : Nat → RefinementSession → RefinementSession
  | 0, s => s
  | n + 1, s => runSteps ex ev n (sessionStep ex ev s)

/-- A session is terminal when ACCEPTED or EXHAUSTED. -/
def isTerminal (s : RefinementSession) : Bool :=
  s.state = SessionState.ACCEPTED || s.state = SessionState.EXHAUSTED

/-- Modelled from the spec: deadline enforcement (spec section 5). A session
that has not reached a terminal state by the deadline is forced to
EXHAUSTED using its last completed candidate — never an empty one if any
non-empty candidate exists. -/
def forceExhaust (s : RefinementSession) : RefinementSession :=
  if isTerminal s then s
  else
    { s with
      state := .EXHAUSTED
      candidate :=
        if s.candidate.records.isEmpty then s.last_nonempty.getD s.candidate
        else s.candidate }

/-- Modelled from the spec: the Triage Router's parsed classification
(spec section 4.2) — one applicability flag per category. -/
structure TriageClassification where
  host_applicable : Bool
  network_applicable : Bool
  timeline_applicable : Bool
  deriving DecidableEq, Repr

/-- All three categories, in canonical order. -/
def allCategories : List Category := [.host, .network, .timeline]

/-- Modelled from the spec: the set of applicable categories produced by the
Triage Router (spec section 4.2). `none` is a triage parse failure and
fails open to all categories; `some t` keeps the categories the
classification marks applicable. The implementing file is not in the
source tree. -/
def applicableCategories : Option TriageClassification → List Category
  | none => allCategories
  | some t =>
      (if t.host_applicable then [Category.host] else []) ++
      (if t.network_applicable then [Category.network] else []) ++
      (if t.timeline_applicable then [Category.timeline] else [])

/-- Modelled from the spec: the Refinement Controller spawns one session per
applicable category (spec section 2; testable property in section 8). -/
def startSessions (tr : Option TriageClassification) (m : Nat) :
    List RefinementSession :=
  (applicableCategories tr).map (fun c => initSession c m)

/-- Normalisation of an indicator value for dedup keys: case-insensitive
(spec section 4.6). -/
def normalizeKey (s : String) : String := s.toLower

/-- Helper for first-seen-wins deduplication: `seen` holds the normalised
keys already emitted; an element whose key was seen is dropped silently. -/
def dedupAux (key : α → String) (seen : List String) : List α → List α
  | [] => []
  | x :: xs =>
      if key x ∈ seen then dedupAux key seen xs
      else x :: dedupAux key (key x :: seen) xs

/-- Modelled from the spec: first-seen-wins deduplication by a normalised
key (spec section 4.6, step 1). The first record with a given key is
kept and every later record with the same key is dropped silently. -/
def dedupByKey (key : α → String) (l : List α) : List α :=
  dedupAux key [] l

/-- Record status assigned at Merge and Commit (spec section 4.6). -/
inductive RecordStatus
  | Confirmed
  | Unconfirmed
  deriving DecidableEq, Repr

/-- A committed record: final typed entity with status and provenance
(spec section 3; rendered by the IOCTables component). -/
structure CommittedRecord where
  indicator_type : String
  indicator : String
  status : RecordStatus
  source : String
  deriving DecidableEq, Repr

/-- Whether the evaluator accepted the session's final iteration. -/
def sessionAccepted (s : RefinementSession) : Bool :=
  s.state = SessionState.ACCEPTED

/-- Modelled from the spec: per-session status tag (spec section 4.6,
step 2) — Confirmed when the evaluator accepted the iteration that
produced the record, Unconfirmed otherwise. -/
def tagStatus (accepted : Bool) : RecordStatus :=
  if accepted then .Confirmed else .Unconfirmed

/-- Printable category name for provenance strings. -/
def categoryName : Category → String
  | .host => "host"
  | .network => "network"
  | .timeline => "timeline"

/-- Modelled from the spec: Merge and Commit per-category processing
(spec section 4.6) — dedup the terminal session's candidate records by
normalised indicator, then tag each survivor with status and provenance. -/
def commitSession (s : RefinementSession) : List CommittedRecord :=
  (dedupByKey (fun r => normalizeKey r.indicator) s.candidate.records).map
    (fun r =>
      { indicator_type := r.indicator_type
        indicator := r.indicator
        status := tagStatus (sessionAccepted s)
        source := categoryName s.category ++ " iteration " ++
          toString s.candidate.iteration })

/-- Modelled from the spec: the persistence collaborator's case store
(spec section 6) — the three record collections returned by
`read_case_data`. -/
structure CaseStore where
  host_records : List CommittedRecord
  network_records : List CommittedRecord
  timeline_records : List CommittedRecord
  deriving DecidableEq, Repr

/-- Modelled from the spec: `write_batch` (spec section 6) appends all three
record lists as a single logical batch and returns success or failure;
on failure nothing is committed (spec section 4.6, step 3: a batch is
never left half-committed). `ok` abstracts the collaborator's outcome. -/
def writeBatch (ok : Bool) (store : CaseStore)
    (h n t : List CommittedRecord) : Except String CaseStore :=
  if ok then
    .ok
      { host_records := store.host_records ++ h
        network_records := store.network_records ++ n
        timeline_records := store.timeline_records ++ t }
  else .error "persistence write failure"

/-- Request status of the invocation surface (spec section 6). -/
inductive RequestStatus
  | success
  | failure
  deriving DecidableEq, Repr

/-- Per-category record counts of a run summary (spec sections 4.6 and 6). -/
structure CategoryCounts where
  host : Nat
  network : Nat
  timeline : Nat
  deriving DecidableEq, Repr

/-- Response shape of the invocation surface (spec section 6):
status, counts per category, optional message. -/
structure ExtractResponse where
  status : RequestStatus
  counts : CategoryCounts
  message : Option String
  deriving DecidableEq, Repr

/-- The request shape accepted by the invocation surface (spec section 6). -/
structure ExtractRequest where
  case_id : String
  narrative_text : String
  model_name : String
  deriving DecidableEq, Repr

/-- Modelled from the spec: the commit step of Merge and Commit
(spec section 4.6, step 3, and section 7) — one call to `write_batch`
(never retried), mapped to a structured response. Besides the response
and the resulting store, the list of attempted writes is returned so
that the no-retry policy is visible. -/
def commitRun (ok : Bool) (store : CaseStore)
    (h n t : List CommittedRecord) :
    ExtractResponse × CaseStore ×
      List (List CommittedRecord × List CommittedRecord × List CommittedRecord) :=
  match writeBatch ok store h n t with
  | .ok store1 =>
      (⟨.success, ⟨h.length, n.length, t.length⟩, none⟩, store1, [(h, n, t)])
  | .error msg =>
      (⟨.failure, ⟨0, 0, 0⟩, some msg⟩, store, [(h, n, t)])

/-- Modelled from the spec: a per-category result-slot write event — which
session wrote, which slot it wrote, and the terminal session value
written (spec sections 4.5 and 5). -/
structure WriteEvent where
  owner : Category
  slot : Category
  result : RefinementSession
  deriving DecidableEq, Repr

/-- Modelled from the spec: one WorkflowRun (spec sections 3 and 5) — one
refinement session per applicable category, each run for at most `fuel`
steps and then deadline-forced to a terminal state; each session writes
exactly its own category slot, once, at termination. -/
def runWorkflow (ex : Category → Extractor) (ev : Category → Evaluator)
    (tr : Option TriageClassification) (m fuel : Nat) : List WriteEvent :=
  (applicableCategories tr).map
    (fun c =>
      { owner := c
        slot := c
        result := forceExhaust (runSteps (ex c) (ev c) fuel (initSession c m)) })

/-- The value held in one category's result slot after a workflow run:
empty when the category was not applicable (spec section 3 invariant). -/
def slotRecords (events : List WriteEvent) (c : Category) :
    List CommittedRecord :=
  match events.find? (fun e => e.slot = c) with
  | none => []
  | some e => commitSession e.result

/-- Modelled from the spec: the extract endpoint of the invocation surface
(spec section 6) — run triage, run the workflow, merge per category,
commit as one batch, and answer with status plus per-category counts. -/
def handleExtract (ex : Category → Extractor) (ev : Category → Evaluator)
    (tr : Option TriageClassification) (m fuel : Nat) (ok : Bool)
    (store : CaseStore) (_req : ExtractRequest) :
    ExtractResponse × CaseStore :=
  let events := runWorkflow ex ev tr m fuel
  let h := slotRecords events .host
  let n := slotRecords events .network
  let t := slotRecords events .timeline
  let out := commitRun ok store h n t
  (out.1, out.2.1)

/-- The frontend form schema (`formSchema` in the extraction form):
description at least 10 characters, model name non-empty. -/
def formSchemaValid (description model : String) : Bool :=
  decide (10 ≤ description.length) && decide (1 ≤ model.length)

/-- The extraction request the frontend sends. -/
structure ExtractionCall where
  caseId : String
  description : String
  model : String
  deriving DecidableEq, Repr

/-- The frontend submit path: the resolver validates the form values and
`onSubmit` (which issues the extraction request) runs only on success;
on validation failure no request is sent. -/
def submitExtraction (caseId description model : String) :
    Option ExtractionCall :=
  if formSchemaValid description model then
    some { caseId := caseId, description := description, model := model }
  else none

/-- The frontend model-selection effect (`fetchModels` in the extraction
form): the form defaults to "mistral"; after the model list loads, if the
list is non-empty and does not include "mistral", the first listed model
is selected instead. -/
def selectedModel (models : List String) : String :=
  if models ≠ [] ∧ "mistral" ∉ models then models.headD "mistral"
  else "mistral"

/-- The inductive invariant of the refinement loop: the iteration count is
within budget, and strictly below it while a refinement is pending. -/
def SessionInv (s : RefinementSession) : Prop :=
  s.iteration_count ≤ s.max_iterations ∧
    (s.state = SessionState.REFINING → s.iteration_count < s.max_iterations)

theorem sessionStep_max_iterations (ex : Extractor) (ev : Evaluator)
    (s : RefinementSession) :
    (sessionStep ex ev s).max_iterations = s.max_iterations := by
  unfold sessionStep
  cases hs : s.state
  case EVALUATING =>
    simp only
    split
    · rfl
    · split <;> rfl
  all_goals rfl

theorem runSteps_max_iterations (ex : Extractor) (ev : Evaluator)
    (n : Nat) (s : RefinementSession) :
    (runSteps ex ev n s).max_iterations = s.max_iterations := by
  induction n generalizing s with
  | zero => rfl
  | succ n ih =>
      rw [runSteps, ih, sessionStep_max_iterations]

theorem sessionInv_step (ex : Extractor) (ev : Evaluator)
    (s : RefinementSession) (h : SessionInv s) :
    SessionInv (sessionStep ex ev s) := by
  obtain ⟨h1, h2⟩ := h
  unfold sessionStep
  cases hs : s.state <;>
    simp only [SessionInv] at *
  case PENDING => exact ⟨h1, by simp⟩
  case EXTRACTING => exact ⟨h1, by simp⟩
  case EVALUATING =>
      split
      · exact ⟨h1, by simp⟩
      · split
        case isTrue hlt => exact ⟨h1, fun _ => hlt⟩
        case isFalse hge => exact ⟨h1, by simp⟩
  case ACCEPTED => exact ⟨h1, fun hr => absurd (hs ▸ hr) (by simp)⟩
  case REFINING => exact ⟨h2 hs, by simp⟩
  case EXHAUSTED => exact ⟨h1, fun hr => absurd (hs ▸ hr) (by simp)⟩

theorem sessionInv_runSteps (ex : Extractor) (ev : Evaluator)
    (n : Nat) (s : RefinementSession) (h : SessionInv s) :
    SessionInv (runSteps ex ev n s) := by
  induction n generalizing s with
  | zero => exact h
  | succ n ih => exact ih _ (sessionInv_step ex ev s h)

/-- C1: for every refinement session started with a positive budget `m`
(default 3), the iteration count never exceeds `m`, however the evaluator
rules and however many steps the loop runs; in particular it still holds
after termination. -/
theorem iteration_count_never_exceeds_max (ex : Extractor) (ev : Evaluator)
    (c : Category) (m fuel : Nat) (hm : 1 ≤ m) :
    (runSteps ex ev fuel (initSession c m)).iteration_count ≤ m := by
  have hinv : SessionInv (initSession c m) := ⟨hm, by simp [initSession]⟩
  have h := sessionInv_runSteps ex ev fuel (initSession c m) hinv
  have hmax := runSteps_max_iterations ex ev fuel (initSession c m)
  have h1 := h.1
  rw [hmax] at h1
  simpa [initSession] using h1

/-- An extractor used to exercise the theorems on concrete runs. -/
def wExtractor : Extractor := fun i _ =>
  { category := .host
    records := [{ indicator_type := "file", indicator := "evil.exe" }]
    iteration := i
    model := "mistral" }

/-- An evaluator that rejects every candidate. -/
def wReject : Evaluator := fun c =>
  { accepted := false, feedback := "missed the C2 domain", category := c.category }

/-- An evaluator that accepts exactly the candidate of iteration 2. -/
def wAcceptSecond : Evaluator := fun c =>
  { accepted := c.iteration == 2, feedback := "", category := c.category }

/-- Witness for C1: a concrete always-rejected run with budget 3 keeps the
iteration count at most 3. -/
theorem iteration_count_never_exceeds_max_witness :
    1 ≤ 3 ∧
      (runSteps wExtractor wReject 20 (initSession .host 3)).iteration_count ≤ 3 :=
  ⟨by decide,
   iteration_count_never_exceeds_max wExtractor wReject .host 3 20 (by decide)⟩

/-- C2: the one-step transition relation of the refinement state machine.
From EVALUATING (with the iteration count within budget) the next state
is ACCEPTED exactly when the verdict accepts, REFINING exactly when it
rejects with budget remaining, and EXHAUSTED exactly when it rejects at
the budget; ACCEPTED and EXHAUSTED are fixed points; REFINING increments
the iteration count and returns to EXTRACTING. -/
theorem refinement_transition_rules (ex : Extractor) (ev : Evaluator) :
    (∀ s : RefinementSession, s.state = .EVALUATING →
      s.iteration_count ≤ s.max_iterations →
      (((sessionStep ex ev s).state = .ACCEPTED ↔
          (ev s.candidate).accepted = true) ∧
       ((sessionStep ex ev s).state = .REFINING ↔
          ((ev s.candidate).accepted = false ∧
            s.iteration_count < s.max_iterations)) ∧
       ((sessionStep ex ev s).state = .EXHAUSTED ↔
          ((ev s.candidate).accepted = false ∧
            s.iteration_count = s.max_iterations)))) ∧
    (∀ s : RefinementSession, s.state = .ACCEPTED → sessionStep ex ev s = s) ∧
    (∀ s : RefinementSession, s.state = .EXHAUSTED → sessionStep ex ev s = s) ∧
    (∀ s : RefinementSession, s.state = .REFINING →
      sessionStep ex ev s =
        { s with state := .EXTRACTING,
                 iteration_count := s.iteration_count + 1 }) := by
  refine ⟨?_, ?_, ?_, ?_⟩
  · intro s hs hle
    unfold sessionStep
    rw [hs]
    simp only
    by_cases hacc : (ev s.candidate).accepted
    · simp [hacc]
    · by_cases hlt : s.iteration_count < s.max_iterations
      · simp [hacc, hlt]
        omega
      · simp [hacc, hlt]
        omega
  · intro s hs; unfold sessionStep; rw [hs]
  · intro s hs; unfold sessionStep; rw [hs]
  · intro s hs; unfold sessionStep; rw [hs]

/-- Witness for C2: on a concrete EVALUATING session with budget remaining
and a rejecting evaluator, the step moves to REFINING. -/
theorem refinement_transition_rules_witness :
    (sessionStep wExtractor wReject
      { initSession .host 3 with state := .EVALUATING }).state = .REFINING :=
  (((refinement_transition_rules wExtractor wReject).1
      { initSession .host 3 with state := .EVALUATING }
      rfl (by decide)).2.1).mpr ⟨by decide, by decide⟩

/-- C3: the controller starts exactly one session per category the Triage
Router marks applicable; on a triage parse failure the router fails open,
so exactly the three sessions for host, network and timeline start. -/
theorem sessions_started_match_triage (tr : Option TriageClassification) (m : Nat) :
    (startSessions tr m).length = (applicableCategories tr).length ∧
    (tr = none →
      startSessions tr m =
        [initSession .host m, initSession .network m, initSession .timeline m]) := by
  constructor
  · simp [startSessions]
  · rintro rfl
    rfl

/-- Witness for C3: a failed triage parse with the default budget starts the
three fail-open sessions. -/
theorem sessions_started_match_triage_witness :
    startSessions none 3 =
      [initSession .host 3, initSession .network 3, initSession .timeline 3] :=
  (sessions_started_match_triage none 3).2 rfl

theorem mem_of_mem_dedupAux (key : α → String) (seen : List String)
    (l : List α) (a : α) (h : a ∈ dedupAux key seen l) : a ∈ l := by
  induction l generalizing seen with
  | nil => simp [dedupAux] at h
  | cons x xs ih =>
      simp only [dedupAux] at h
      split at h
      · exact List.mem_cons_of_mem _ (ih _ h)
      · rcases List.mem_cons.mp h with h1 | h1
        · exact h1 ▸ List.mem_cons_self x xs
        · exact List.mem_cons_of_mem _ (ih _ h1)

theorem dedupAux_keys_nodup (key : α → String) (l : List α) :
    ∀ seen : List String,
      (∀ k ∈ (dedupAux key seen l).map key, k ∉ seen) ∧
        ((dedupAux key seen l).map key).Nodup := by
  induction l with
  | nil => intro seen; simp [dedupAux]
  | cons x xs ih =>
      intro seen
      simp only [dedupAux]
      split
      case isTrue hx => exact ih seen
      case isFalse hx =>
        obtain ⟨h1, h2⟩ := ih (key x :: seen)
        constructor
        · intro k hk
          simp only [List.map_cons, List.mem_cons] at hk
          rcases hk with rfl | hk
          · exact hx
          · exact fun hks => (h1 k hk) (List.mem_cons_of_mem _ hks)
        · simp only [List.map_cons, List.nodup_cons]
          exact ⟨fun hmem => (h1 _ hmem) (List.mem_cons_self _ _), h2⟩

theorem dedupAux_find? (key : α → String) (l : List α) (k : String) :
    ∀ seen : List String, k ∉ seen →
      (dedupAux key seen l).find? (fun y => key y == k) =
        l.find? (fun y => key y == k) := by
  induction l with
  | nil => intro seen _; rfl
  | cons x xs ih =>
      intro seen hk
      simp only [dedupAux]
      split
      case isTrue hx =>
        have hne : ¬(key x == k) = true := by
          simp only [beq_iff_eq]
          intro heq
          exact hk (heq ▸ hx)
        rw [@List.find?_cons_of_neg _ (fun y => key y == k) x xs hne]
        exact ih seen hk
      case isFalse hx =>
        by_cases hxk : key x = k
        · have hp : ((fun y => key y == k) x) = true := by simp [hxk]
          rw [@List.find?_cons_of_pos _ (fun y => key y == k) x
              (dedupAux key (key x :: seen) xs) hp,
            @List.find?_cons_of_pos _ (fun y => key y == k) x xs hp]
        · have hn : ¬((fun y => key y == k) x) = true := by simp [hxk]
          rw [@List.find?_cons_of_neg _ (fun y => key y == k) x
              (dedupAux key (key x :: seen) xs) hn,
            @List.find?_cons_of_neg _ (fun y => key y == k) x xs hn]
          refine ih (key x :: seen) ?_
          intro hmem
          rcases List.mem_cons.mp hmem with heq | hmem2
          · exact hxk heq.symm
          · exact hk hmem2

theorem dedupAux_eq_self (key : α → String) (l : List α) :
    ∀ seen : List String, (∀ a ∈ l, key a ∉ seen) → (l.map key).Nodup →
      dedupAux key seen l = l := by
  induction l with
  | nil => intro seen _ _; rfl
  | cons x xs ih =>
      intro seen hseen hnd
      simp only [List.map_cons, List.nodup_cons] at hnd
      simp only [dedupAux]
      rw [if_neg (hseen x (List.mem_cons_self x xs))]
      congr 1
      refine ih (key x :: seen) ?_ hnd.2
      intro a ha hmem
      rcases List.mem_cons.mp hmem with heq | hmem2
      · exact hnd.1 (heq ▸ List.mem_map_of_mem key ha)
      · exact hseen a (List.mem_cons_of_mem x ha) hmem2

/-- C4: first-seen-wins dedup at Merge and Commit, with the normalised
(case-insensitive) indicator key used there: the committed batch has
pairwise-distinct normalised keys, a key appears in the batch exactly
when it appears in the input, the survivor for each key is the first
input record carrying that key, and deduplicating an already-deduplicated
list changes nothing. -/
theorem merge_dedup_properties (l : List RawRecord) :
    (((dedupByKey (fun r => normalizeKey r.indicator) l).map
        (fun r => normalizeKey r.indicator)).Nodup) ∧
    (∀ k : String,
      k ∈ (dedupByKey (fun r => normalizeKey r.indicator) l).map
          (fun r => normalizeKey r.indicator) ↔
        k ∈ l.map (fun r => normalizeKey r.indicator)) ∧
    (∀ k : String,
      (dedupByKey (fun r => normalizeKey r.indicator) l).find?
          (fun r => normalizeKey r.indicator == k) =
        l.find? (fun r => normalizeKey r.indicator == k)) ∧
    dedupByKey (fun r => normalizeKey r.indicator)
        (dedupByKey (fun r => normalizeKey r.indicator) l) =
      dedupByKey (fun r => normalizeKey r.indicator) l := by
  set key : RawRecord → String := fun r => normalizeKey r.indicator with hkey
  have hfind : ∀ k : String,
      (dedupByKey key l).find? (fun r => key r == k) =
        l.find? (fun r => key r == k) :=
    fun k => dedupAux_find? key l k [] (by simp)
  refine ⟨(dedupAux_keys_nodup key l []).2, ?_, hfind, ?_⟩
  · intro k
    constructor
    · intro hk
      rcases List.mem_map.mp hk with ⟨a, ha, hak⟩
      exact List.mem_map.mpr ⟨a, mem_of_mem_dedupAux key [] l a ha, hak⟩
    · intro hk
      rcases List.mem_map.mp hk with ⟨a, ha, hak⟩
      have hsome : (l.find? (fun r => key r == k)).isSome := by
        rw [List.find?_isSome]
        exact ⟨a, ha, by simp [hak]⟩
      rw [← hfind k] at hsome
      obtain ⟨b, hb⟩ := Option.isSome_iff_exists.mp hsome
      have hbmem := List.mem_of_find?_eq_some hb
      have hbk := List.find?_some hb
      exact List.mem_map.mpr ⟨b, hbmem, by simpa using hbk⟩
  · exact dedupAux_eq_self key (dedupByKey key l) [] (by simp)
      (dedupAux_keys_nodup key l []).2

/-- C5: every record surviving Merge and Commit carries status Confirmed
exactly when the evaluator accepted the session's final iteration; an
ACCEPTED session commits Confirmed records, an EXHAUSTED one commits
Unconfirmed records. -/
theorem committed_status_matches_acceptance :
    (∀ s : RefinementSession, ∀ r ∈ commitSession s,
      (r.status = RecordStatus.Confirmed ↔ sessionAccepted s = true)) ∧
    (∀ s : RefinementSession, s.state = .ACCEPTED →
      ∀ r ∈ commitSession s, r.status = RecordStatus.Confirmed) ∧
    (∀ s : RefinementSession, s.state = .EXHAUSTED →
      ∀ r ∈ commitSession s, r.status = RecordStatus.Unconfirmed) := by
  have hstatus : ∀ s : RefinementSession, ∀ r ∈ commitSession s,
      r.status = tagStatus (sessionAccepted s) := by
    intro s r hr
    rcases List.mem_map.mp hr with ⟨a, _, rfl⟩
    rfl
  refine ⟨?_, ?_, ?_⟩
  · intro s r hr
    rw [hstatus s r hr]
    cases hacc : sessionAccepted s <;> simp [hacc, tagStatus]
  · intro s hs r hr
    rw [hstatus s r hr]
    have hacc : sessionAccepted s = true := by simp [sessionAccepted, hs]
    simp [hacc, tagStatus]
  · intro s hs r hr
    rw [hstatus s r hr]
    have hacc : sessionAccepted s = false := by simp [sessionAccepted, hs]
    simp [hacc, tagStatus]

/-- Witness for C5: the concrete always-rejected run ends EXHAUSTED and its
committed record is tagged Unconfirmed. -/
theorem committed_status_matches_acceptance_witness :
    ({ indicator_type := "file", indicator := "evil.exe",
       status := RecordStatus.Unconfirmed,
       source := "host iteration 3" } : CommittedRecord).status =
      RecordStatus.Unconfirmed :=
  committed_status_matches_acceptance.2.2
    (runSteps wExtractor wReject 20 (initSession .host 3)) (by decide)
    _ (by decide)

/-- C6: when the persistence batch write fails, the caller receives a
failure status with a message, the store is unchanged — so a subsequent
read of the case shows no record from any category of the run — and
exactly one write was attempted (no retry). -/
theorem persistence_failure_is_atomic (store : CaseStore)
    (h n t : List CommittedRecord) :
    (commitRun false store h n t).1.status = RequestStatus.failure ∧
    (commitRun false store h n t).1.message.isSome = true ∧
    (commitRun false store h n t).2.1 = store ∧
    (commitRun false store h n t).2.2.length = 1 := by
  simp [commitRun, writeBatch]

/-- The run never stores an empty candidate as its last non-empty one. -/
def NonemptyInv (s : RefinementSession) : Prop :=
  ∀ c : ExtractionCandidate, s.last_nonempty = some c → c.records ≠ []

theorem nonemptyInv_step (ex : Extractor) (ev : Evaluator)
    (s : RefinementSession) (h : NonemptyInv s) :
    NonemptyInv (sessionStep ex ev s) := by
  unfold sessionStep
  cases hs : s.state
  case EXTRACTING =>
      intro c hc
      simp only at hc
      split at hc
      · exact h c hc
      case isFalse hne =>
        injection hc with hc
        subst hc
        intro habs
        rw [habs] at hne
        simp at hne
  case EVALUATING =>
      intro c hc
      simp only at hc
      split at hc
      · exact h c hc
      · split at hc <;> exact h c hc
  all_goals exact h

theorem nonemptyInv_runSteps (ex : Extractor) (ev : Evaluator)
    (n : Nat) (s : RefinementSession) (h : NonemptyInv s) :
    NonemptyInv (runSteps ex ev n s) := by
  induction n generalizing s with
  | zero => exact h
  | succ n ih => exact ih _ (nonemptyInv_step ex ev s h)

theorem isTerminal_forceExhaust (s : RefinementSession) :
    isTerminal (forceExhaust s) = true := by
  unfold forceExhaust
  split
  case isTrue h => exact h
  case isFalse h => simp [isTerminal]

/-- C7: a session terminating EXHAUSTED surfaces its last completed
candidate. Budget exhaustion keeps the candidate of the final completed
iteration unchanged; deadline forcing of a non-terminal session (started
from a fresh session) yields EXHAUSTED and, whenever any non-empty
candidate was produced, a non-empty surfaced candidate. -/
theorem exhausted_surfaces_last_candidate (ex : Extractor) (ev : Evaluator) :
    (∀ s : RefinementSession, s.state = .EVALUATING →
      (ev s.candidate).accepted = false →
      ¬ s.iteration_count < s.max_iterations →
      (sessionStep ex ev s).state = .EXHAUSTED ∧
        (sessionStep ex ev s).candidate = s.candidate) ∧
    (∀ (c : Category) (m fuel : Nat),
      ¬ isTerminal (runSteps ex ev fuel (initSession c m)) = true →
      ((forceExhaust (runSteps ex ev fuel (initSession c m))).state =
          .EXHAUSTED ∧
        ((runSteps ex ev fuel (initSession c m)).last_nonempty.isSome = true →
          (forceExhaust
            (runSteps ex ev fuel (initSession c m))).candidate.records ≠ []))) := by
  constructor
  · intro s hs hacc hge
    unfold sessionStep
    rw [hs]
    simp [hacc, hge]
  · intro c m fuel hterm
    have hinv : NonemptyInv (runSteps ex ev fuel (initSession c m)) := by
      refine nonemptyInv_runSteps ex ev fuel (initSession c m) ?_
      intro cand hcand
      simp [initSession] at hcand
    constructor
    · simp [forceExhaust, hterm]
    · intro hsome
      unfold forceExhaust
      rw [if_neg (by simpa using hterm)]
      simp only
      split
      case isTrue hemp =>
        obtain ⟨cand, hcand⟩ := Option.isSome_iff_exists.mp hsome
        rw [hcand]
        simpa using hinv cand hcand
      case isFalse hne =>
        intro habs
        rw [habs] at hne
        simp at hne

/-- Witness for C7: two steps into the concrete run the session sits
non-terminal in EVALUATING with a non-empty candidate; deadline forcing
surfaces that candidate. -/
theorem exhausted_surfaces_last_candidate_witness :
    (forceExhaust
      (runSteps wExtractor wReject 2 (initSession .host 3))).candidate.records ≠ [] :=
  ((exhausted_surfaces_last_candidate wExtractor wReject).2 .host 3 2
    (by decide)).2 (by decide)

theorem applicableCategories_nodup (tr : Option TriageClassification) :
    (applicableCategories tr).Nodup := by
  cases tr with
  | none => decide
  | some t =>
      obtain ⟨h, n, tl⟩ := t
      cases h <;> cases n <;> cases tl <;> decide

theorem countP_eq_key_mem {β : Type} [DecidableEq β] (l : List β) (c : β)
    (hnd : l.Nodup) :
    l.countP (fun a => a = c) = if c ∈ l then 1 else 0 := by
  induction l with
  | nil => simp
  | cons x xs ih =>
      rw [List.countP_cons]
      simp only [List.nodup_cons] at hnd
      by_cases hxc : x = c
      · subst hxc
        have h0 : xs.countP (fun a => a = x) = 0 := by
          rw [List.countP_eq_zero]
          intro a ha
          simp only [decide_eq_true_eq]
          intro habs
          exact hnd.1 (habs ▸ ha)
        simp [h0, List.mem_cons]
      · rw [ih hnd.2]
        have hcx : ¬c = x := fun heq => hxc heq.symm
        by_cases hc : c ∈ xs <;> simp [hc, List.mem_cons, hxc, hcx]

/-- C8: in a workflow run, every result-slot write is performed by the
session owning that category and carries a terminal session value, and
each category's slot is written exactly once when the category is
applicable and never otherwise; cross-category state is only combined
afterwards, by the merge stage reading the completed slots. -/
theorem session_slot_isolation (ex : Category → Extractor)
    (ev : Category → Evaluator) (tr : Option TriageClassification)
    (m fuel : Nat) :
    (∀ e ∈ runWorkflow ex ev tr m fuel,
      e.owner = e.slot ∧ isTerminal e.result = true) ∧
    (∀ c : Category,
      (runWorkflow ex ev tr m fuel).countP (fun e => e.slot = c) =
        if c ∈ applicableCategories tr then 1 else 0) := by
  constructor
  · intro e he
    rcases List.mem_map.mp he with ⟨a, _, rfl⟩
    exact ⟨rfl, isTerminal_forceExhaust _⟩
  · intro c
    unfold runWorkflow
    rw [List.countP_map]
    exact countP_eq_key_mem (applicableCategories tr) c
      (applicableCategories_nodup tr)

/-- Witness for C8: in the concrete fail-open run, the host slot is written
exactly once and the first write event is by its owning session. -/
theorem session_slot_isolation_witness :
    ((runWorkflow (fun _ => wExtractor) (fun _ => wReject) none 3 20).countP
        (fun e => e.slot = Category.host) = 1) ∧
    (((runWorkflow (fun _ => wExtractor) (fun _ => wReject) none 3 20).headD
        { owner := .host, slot := .host, result := initSession .host 3 }).owner =
      ((runWorkflow (fun _ => wExtractor) (fun _ => wReject) none 3 20).headD
        { owner := .host, slot := .host, result := initSession .host 3 }).slot) := by
  constructor
  · have h := (session_slot_isolation (fun _ => wExtractor)
        (fun _ => wReject) none 3 20).2 Category.host
    rw [h]
    decide
  · exact ((session_slot_isolation (fun _ => wExtractor)
        (fun _ => wReject) none 3 20).1 _ (by decide)).1

/-- C9: the invocation surface takes {case_id, narrative_text, model_name}
(the fields of ExtractRequest) and answers a structured result whose
status is success or failure, whose counts on success are the numbers of
committed host, network and timeline records of the run, and which
carries a message on failure. -/
theorem extract_endpoint_contract (ex : Category → Extractor)
    (ev : Category → Evaluator) (tr : Option TriageClassification)
    (m fuel : Nat) (ok : Bool) (store : CaseStore) (req : ExtractRequest) :
    ((handleExtract ex ev tr m fuel ok store req).1.status = .success ∨
      (handleExtract ex ev tr m fuel ok store req).1.status = .failure) ∧
    ((handleExtract ex ev tr m fuel ok store req).1.status = .success ↔
      ok = true) ∧
    ((handleExtract ex ev tr m fuel ok store req).1.status = .success →
      (handleExtract ex ev tr m fuel ok store req).1.counts =
        { host := (slotRecords (runWorkflow ex ev tr m fuel) .host).length
          network := (slotRecords (runWorkflow ex ev tr m fuel) .network).length
          timeline :=
            (slotRecords (runWorkflow ex ev tr m fuel) .timeline).length }) ∧
    ((handleExtract ex ev tr m fuel ok store req).1.status = .failure →
      (handleExtract ex ev tr m fuel ok store req).1.message.isSome = true) := by
  cases ok <;> simp [handleExtract, commitRun, writeBatch]

/-- Witness for C9: a successful concrete fail-open run reports one
committed record per category. -/
theorem extract_endpoint_contract_witness :
    (handleExtract (fun _ => wExtractor) (fun _ => wReject) none 3 20 true
        ⟨[], [], []⟩ ⟨"case-1", "narrative text", "mistral"⟩).1.counts =
      { host := 1, network := 1, timeline := 1 } := by
  have h := extract_endpoint_contract (fun _ => wExtractor)
      (fun _ => wReject) none 3 20 true ⟨[], [], []⟩
      ⟨"case-1", "narrative text", "mistral"⟩
  rw [h.2.2.1 (h.2.1.mpr rfl)]
  decide

/-- C10: the extraction form sends a request only when the description has
at least 10 characters and a model name is selected; the model defaults
to "mistral" and, once the runtime's model list loads, is replaced by the
first listed model exactly when the non-empty list does not include
"mistral". -/
theorem extraction_form_preconditions :
    (∀ caseId description model : String,
      (submitExtraction caseId description model).isSome = true ↔
        (10 ≤ description.length ∧ 1 ≤ model.length)) ∧
    (∀ caseId description model : String,
      ¬(10 ≤ description.length ∧ 1 ≤ model.length) →
        submitExtraction caseId description model = none) ∧
    selectedModel [] = "mistral" ∧
    (∀ models : List String, "mistral" ∈ models →
      selectedModel models = "mistral") ∧
    (∀ (m0 : String) (ms : List String), "mistral" ∉ m0 :: ms →
      selectedModel (m0 :: ms) = m0) := by
  refine ⟨?_, ?_, ?_, ?_, ?_⟩
  · intro cid d mo
    unfold submitExtraction formSchemaValid
    by_cases h1 : 10 ≤ d.length <;> by_cases h2 : 1 ≤ mo.length <;>
      simp [h1, h2]
  · intro cid d mo hinval
    unfold submitExtraction formSchemaValid
    rw [if_neg]
    simpa using hinval
  · simp [selectedModel]
  · intro models hm
    simp [selectedModel, hm]
  · intro m0 ms hm
    unfold selectedModel
    rw [if_pos ⟨by simp, hm⟩]
    rfl

/-- Witness for C10: a 9-character description is rejected without sending a
request, and a model list without "mistral" selects its first entry. -/
theorem extraction_form_preconditions_witness :
    submitExtraction "case-1" "too short" "mistral" = none ∧
    selectedModel ["llama3", "qwen"] = "llama3" :=
  ⟨extraction_form_preconditions.2.1 "case-1" "too short" "mistral" (by decide),
   extraction_form_preconditions.2.2.2.2 "llama3" ["qwen"] (by decide)⟩

end IncidentNotebook
